import Mathlib

/-!
Verification development for the Gree-Expression inference engine
(`src/main.py`).  The Python source is shallowly embedded: Python strings
become Lean `String`, `None`/values become `Option`, and `re.fullmatch` is
modelled by an executable Brzozowski-derivative matcher over the regex
fragment the engine emits, with a pattern compiler that returns `none` on
the pattern-syntax errors Python's `re` would raise (unsupported or
malformed constructs are conservatively compile errors).  Python's
`str.isalpha`/`isdigit`/`isalnum` are modelled on the ASCII range, which
covers every string the engine's claims are evaluated on.
-/

/-! ## Python character and string primitives -/

/-- Model of Python `c.isdigit()` for a single character (ASCII range). -/
def pyIsDigit (c : Char) : Bool := c.isDigit

/-- Model of Python `c.isalpha()` for a single character (ASCII range). -/
def pyIsAlphaCh (c : Char) : Bool := c.isAlpha

/-- Model of Python `c.isalnum()` for a single character (ASCII range). -/
def pyIsAlnum (c : Char) : Bool := c.isAlphanum

/-- Model of Python `s.isalpha()`: non-empty and every character alphabetic. -/
def pyStrIsAlpha (s : String) : Bool := !s.isEmpty && s.data.all pyIsAlphaCh

/-- Model of Python `s.isdigit()`: non-empty and every character a digit. -/
def pyStrIsDigit (s : String) : Bool := !s.isEmpty && s.data.all pyIsDigit

/-- Model of Python `c in s` for a character and a string. -/
def pyStrContains (s : String) (c : Char) : Bool := s.data.any (fun d => d == c)

/-- Characters of the concatenation `''.join(strings)`. -/
def pyConcatChars : List String → List Char
  | [] => []
  | s :: rest => s.data ++ pyConcatChars rest

/-- Model of Python `str.split` with a single-character separator, on
character lists: keeps empty fragments, `[]` splits to `[[]]`. -/
def splitChars (sep : Char) : List Char → List (List Char)
  | [] => [[]]
  | c :: cs =>
    let r := splitChars sep cs
    if c == sep then [] :: r
    else
      match r with
      | h :: t => (c :: h) :: t
      | [] => [[c]]

/-- Model of Python `s.split(sep)` for a single-character separator. -/
def pySplit (s : String) (sep : Char) : List String :=
  (splitChars sep s.data).map String.mk

/-- Model of Python `sep.join(parts)`. -/
def joinList (sep : String) : List String → String
  | [] => ""
  | [x] => x
  | x :: xs => x ++ sep ++ joinList sep xs

/-- First-occurrence deduplication, modelling iteration over a Python `set`
of characters (CPython's hash order is not observable by any claim settled
here; every input decided concretely has at most one relevant character). -/
def dedupChars (l : List Char) : List Char :=
  l.foldl (fun acc c => if acc.contains c then acc else acc ++ [c]) []

/-- Insertion into an ascending-by-codepoint character list. -/
def insertChar (c : Char) : List Char → List Char
  | [] => [c]
  | d :: ds => if c.toNat ≤ d.toNat then c :: d :: ds else d :: insertChar c ds

/-- Ascending codepoint sort, modelling Python `sorted` on characters. -/
def sortChars (l : List Char) : List Char := l.foldr insertChar []

/-- The characters Python `re.escape` prefixes with a backslash
(CPython ≥ 3.7 special-character map). -/
def pySpecialChar (c : Char) : Bool :=
  c == '(' || c == ')' || c == '[' || c == ']' ||
  c == Char.ofNat 123 || c == Char.ofNat 125 ||
  c == '?' || c == '*' || c == '+' || c == '-' || c == '|' ||
  c == '^' || c == '$' || c == '\\' || c == '.' || c == '&' ||
  c == '~' || c == '#' || c == ' ' ||
  c == Char.ofNat 9 || c == Char.ofNat 10 || c == Char.ofNat 13 ||
  c == Char.ofNat 11 || c == Char.ofNat 12

/-- Model of Python `re.escape`. -/
def pyReEscape (s : String) : String :=
  String.mk (s.data.foldr (fun c acc =>
    if pySpecialChar c then '\\' :: c :: acc else c :: acc) [])

/-! ## The regex fragment emitted by the engine: AST and matcher -/

/-- One item of a character class: a literal, a codepoint range, or one of
the shorthand classes `\d \D \w \W`, or the `.` wildcard. -/
inductive CItem where
  | single (c : Char)
  | crange (lo hi : Char)
  | pdigit
  | pNdigit
  | pword
  | pNword
  | pany
deriving DecidableEq

/-- Whether a class item accepts a character. -/
def citemTest : CItem → Char → Bool
  | .single a, c => a == c
  | .crange lo hi, c => lo.toNat ≤ c.toNat && c.toNat ≤ hi.toNat
  | .pdigit, c => pyIsDigit c
  | .pNdigit, c => !pyIsDigit c
  | .pword, c => pyIsAlnum c || c == '_'
  | .pNword, c => !(pyIsAlnum c || c == '_')
  | .pany, c => c != Char.ofNat 10

/-- Regular expressions: empty language, empty string, a (possibly negated)
character class, sequence, alternation, Kleene star. -/
inductive RE where
  | rfail
  | reps
  | rcls (neg : Bool) (items : List CItem)
  | rseq (a b : RE)
  | ralt (a b : RE)
  | rstar (a : RE)
deriving DecidableEq

/-- Smart sequence constructor (simplifies the failure/empty cases). -/
def mkSeq (a b : RE) : RE :=
  match a, b with
  | .rfail, _ => .rfail
  | _, .rfail => .rfail
  | .reps, x => x
  | x, .reps => x
  | x, y => .rseq x y

/-- Smart alternation constructor (drops failure branches). -/
def mkAlt (a b : RE) : RE :=
  match a, b with
  | .rfail, x => x
  | x, .rfail => x
  | x, y => .ralt x y

/-- Whether a regex accepts the empty string. -/
def nullable : RE → Bool
  | .rfail => false
  | .reps => true
  | .rcls _ _ => false
  | .rseq a b => nullable a && nullable b
  | .ralt a b => nullable a || nullable b
  | .rstar _ => true

/-- Brzozowski derivative with respect to one character. -/
def derivRE (r : RE) (c : Char) : RE :=
  match r with
  | .rfail => .rfail
  | .reps => .rfail
  | .rcls neg items => if (items.any (fun it => citemTest it c)) != neg then .reps else .rfail
  | .rseq a b =>
    if nullable a then mkAlt (mkSeq (derivRE a c) b) (derivRE b c)
    else mkSeq (derivRE a c) b
  | .ralt a b => mkAlt (derivRE a c) (derivRE b c)
  | .rstar a => mkSeq (derivRE a c) (.rstar a)

/-- Full-string match of a regex against a character list: the model of
`re.fullmatch` semantics (the whole string must be consumed). -/
def matchRE (r : RE) (s : List Char) : Bool :=
  nullable (s.foldl derivRE r)

/-! ## Pattern compiler: the model of `re.compile` on the emitted fragment -/

/-- Translate an escape `\c` occurring outside a class; `none` models a
`re.error` (unknown escapes of alphanumerics and unsupported classes). -/
def escItem (c : Char) : Option RE :=
  if c == 'd' then some (.rcls false [.pdigit])
  else if c == 'D' then some (.rcls false [.pNdigit])
  else if c == 'w' then some (.rcls false [.pword])
  else if c == 'W' then some (.rcls false [.pNword])
  else if pyIsAlnum c then none
  else some (.rcls false [.single c])

/-- Parse the items of a bracket class, after the opening `[` (and after a
possible negation marker).  `first` is true just after the opening so that
a leading `]` is read as a literal, matching Python.  Returns the items
and the remaining input after the closing `]`. -/
def parseClsItems (fuel : Nat) (cs : List Char) (first : Bool) (acc : List CItem) :
    Option (List CItem × List Char) :=
  match fuel with
  | 0 => none
  | fuel + 1 =>
    match cs with
    | [] => none
    | ']' :: rest =>
      if first then parseClsItems fuel rest false (acc ++ [.single ']'])
      else some (acc, rest)
    | '\\' :: e :: rest =>
      if e == 'd' then parseClsItems fuel rest false (acc ++ [.pdigit])
      else if e == 'D' then parseClsItems fuel rest false (acc ++ [.pNdigit])
      else if e == 'w' then parseClsItems fuel rest false (acc ++ [.pword])
      else if e == 'W' then parseClsItems fuel rest false (acc ++ [.pNword])
      else if pyIsAlnum e then none
      else parseClsItems fuel rest false (acc ++ [.single e])
    | a :: '-' :: b :: rest =>
      if b == ']' then parseClsItems fuel ('-' :: b :: rest) false (acc ++ [.single a])
      else if a.toNat ≤ b.toNat then parseClsItems fuel rest false (acc ++ [.crange a b])
      else none
    | a :: rest => parseClsItems fuel rest false (acc ++ [.single a])

/-- Assemble a reversed list of atoms into a sequence regex. -/
def assembleSeq (acc : List RE) : RE :=
  acc.foldl (fun r a => RE.rseq a r) RE.reps

/-- Sequence parser.  `acc` holds the atoms parsed so far (reversed);
`lastQ` records whether the previous atom already carries a quantifier
(so `++` is a `multiple repeat` error, as in Python before 3.11).
A trailing `$` is consumed as the end anchor; constructs the engine never
emits in a compilable position (`^`/`$` mid-pattern, groups, alternation,
braces) are conservatively compile errors. -/
def parseSeqAux (fuel : Nat) (cs : List Char) (acc : List RE) (lastQ : Bool) : Option RE :=
  match fuel with
  | 0 => none
  | fuel + 1 =>
    match cs with
    | [] => some (assembleSeq acc)
    | ['$'] => some (assembleSeq acc)
    | '\\' :: e :: rest =>
      match escItem e with
      | some r => parseSeqAux fuel rest (r :: acc) false
      | none => none
    | ['\\'] => none
    | '[' :: rest =>
      match rest with
      | '^' :: rest2 =>
        match parseClsItems (rest2.length + 1) rest2 true [] with
        | some (items, rest3) => parseSeqAux fuel rest3 (RE.rcls true items :: acc) false
        | none => none
      | _ =>
        match parseClsItems (rest.length + 1) rest true [] with
        | some (items, rest3) => parseSeqAux fuel rest3 (RE.rcls false items :: acc) false
        | none => none
    | '+' :: rest =>
      match acc, lastQ with
      | a :: as_, false => parseSeqAux fuel rest (RE.rseq a (RE.rstar a) :: as_) true
      | _, _ => none
    | '*' :: rest =>
      match acc, lastQ with
      | a :: as_, false => parseSeqAux fuel rest (RE.rstar a :: as_) true
      | _, _ => none
    | '?' :: rest =>
      match acc, lastQ with
      | a :: as_, false => parseSeqAux fuel rest (RE.ralt a RE.reps :: as_) true
      | _ :: _, true => parseSeqAux fuel rest acc true
      | _, _ => none
    | '.' :: rest => parseSeqAux fuel rest (RE.rcls false [.pany] :: acc) false
    | '^' :: _ => none
    | '$' :: _ => none
    | '(' :: _ => none
    | ')' :: _ => none
    | '|' :: _ => none
    | c :: rest =>
      if c == Char.ofNat 123 || c == Char.ofNat 125 then none
      else parseSeqAux fuel rest (RE.rcls false [.single c] :: acc) false

/-- Model of `re.compile` on the engine's pattern fragment; `none` models a
raised `re.error`.  A leading `^` is the start anchor; under `fullmatch`
semantics both anchors are no-ops. -/
def compileRE (p : String) : Option RE :=
  let cs := p.data
  let body := match cs with
    | '^' :: r => r
    | _ => cs
  parseSeqAux (body.length + 1) body [] false

/-! ## The Match Oracle (`_validate_pattern`, src/main.py lines 42-53) -/

/-- Model of `_validate_pattern`.  When the pattern compiles, every valid
string must fully match and no invalid string may match.  When compilation
fails, Python raises `re.error` at the first `re.fullmatch` call, which the
`try/except` turns into `False`; if both sequences are empty no match is
ever attempted, so the error never surfaces and the function returns
`True`. -/
def _validate_pattern (p : String) (v i : List String) : Bool :=
  match compileRE p with
  | some r => v.all (fun s => matchRE r s.data) && !(i.any (fun s => matchRE r s.data))
  | none => v.isEmpty && i.isEmpty

/-! ## Strategy 1: uniform character class (lines 57-64) -/

/-- The ordered class list of `_generate_char_class_pattern`. -/
def charClasses : List String :=
  ["\\d", "\\D", "\\w", "\\W", "[a-z]", "[A-Z]", "[a-zA-Z]"]

/-- The loop of `_generate_char_class_pattern`: first class whose
whole-string pattern validates. -/
def charClassLoop (v i : List String) : List String → Option String
  | [] => none
  | c :: cs =>
    if _validate_pattern ("^" ++ c ++ "+$") v i then some ("^" ++ c ++ "+$")
    else charClassLoop v i cs

/-- Model of `_generate_char_class_pattern`. -/
def _generate_char_class_pattern (v i : List String) : Option String :=
  charClassLoop v i charClasses

/-! ## Affix analyzer (lines 66-75, 91-96) -/

/-- Longest common prefix of two character lists; the shrink-until-prefix
loop of `_find_common_prefix` computes exactly this fold. -/
def lcpChars : List Char → List Char → List Char
  | a :: as_, b :: bs => if a == b then a :: lcpChars as_ bs else []
  | _, _ => []

/-- Model of `_find_common_prefix`: seed with the first string, shrink
against each remaining string. -/
def _find_common_prefix_impl (strings : List String) : String :=
  match strings with
  | [] => ""
  | s :: rest => String.mk (rest.foldl (fun pre t => lcpChars pre t.data) s.data)

/-- Model of `_find_common_suffix`: reverse, common prefix, reverse. -/
def _find_common_suffix (strings : List String) : String :=
  String.mk ((_find_common_prefix_impl (strings.map (fun s => String.mk s.data.reverse))).data.reverse)

/-! ## Strategies 2 and 4 in code order: common prefix / common suffix -/

/-- Model of `_generate_prefix_pattern` (lines 77-89): single-character
prefixes are rendered as a bracket set, longer ones as an escaped literal. -/
def _generate_prefix_pattern (v i : List String) : Option String :=
  let pre := _find_common_prefix_impl v
  if pre != "" then
    let p := if pre.length == 1 then "^[" ++ pyReEscape pre ++ "].+$"
             else "^" ++ pyReEscape pre ++ ".+$"
    if _validate_pattern p v i then some p else none
  else none

/-- Model of `_generate_suffix_pattern` (lines 98-109). -/
def _generate_suffix_pattern (v i : List String) : Option String :=
  let suf := _find_common_suffix v
  if suf != "" then
    let p := if suf.length == 1 then "^.+[" ++ pyReEscape suf ++ "]$"
             else "^.+" ++ pyReEscape suf ++ "$"
    if _validate_pattern p v i then some p else none
  else none

/-! ## Character-class classifier (lines 111-135) -/

/-- Model of `len(set(strings)) == 1`: non-empty and all elements equal. -/
def allSameNonempty (strings : List String) : Bool :=
  match strings with
  | [] => false
  | s :: rest => rest.all (fun t => t == s)

/-- Model of `_analyze_character_patterns`: the classes holding uniformly,
most specific first, plus the literal single repeated character. -/
def _analyze_character_patterns (strings : List String) : List String :=
  (if strings.all pyStrIsAlpha then ["\\D"] else []) ++
  (if strings.all pyStrIsDigit then ["\\d"] else []) ++
  (if strings.all (fun s => s.data.all (fun c => pyIsAlnum c || c == '_')) then ["\\w"] else []) ++
  (if strings.all (fun s => s.length == 1) && allSameNonempty strings then [strings.headD ""] else [])

/-- Model of `_infer_character_class`: prefer the exact single character
when it is itself among the analyzed patterns, else the most specific
pattern, else the wildcard. -/
def _infer_character_class (strings : List String) : String :=
  let patterns := _analyze_character_patterns strings
  if decide (0 < strings.length) && (strings.headD "").length == 1
      && patterns.contains (strings.headD "") then
    strings.headD ""
  else
    patterns.headD "."

/-! ## Strategy 5 in code order: contains a distinguishing character
(lines 137-174) -/

/-- The candidate characters of `_generate_contains_pattern`: every
character (of any kind) present in every valid string, in first-occurrence
order of the concatenation. -/
def containsSeparators (v : List String) : List Char :=
  (dedupChars (pyConcatChars v)).filter (fun c => v.all (fun s => pyStrContains s c))

/-- The per-separator loop of `_generate_contains_pattern`: part-count
check, per-position classification (skipping positions with an empty
fragment), joined candidate, then the escaped simple contains candidate. -/
def containsLoop (v i : List String) : List Char → Option String
  | [] => none
  | sep :: rest =>
    let parts_valid := v.map (fun s => pySplit s sep)
    let hd := parts_valid.headD []
    if !(parts_valid.all (fun p => p.length == hd.length)) then containsLoop v i rest
    else
      let part_patterns := (List.range hd.length).filterMap (fun j =>
        let current := parts_valid.map (fun p => p.getD j "")
        if current.all (fun t => t != "") then some (_infer_character_class current ++ "+")
        else none)
      let joinRes : Option String :=
        if part_patterns.isEmpty then none
        else
          if _validate_pattern ("^" ++ joinList (String.singleton sep) part_patterns ++ "$") v i
          then some ("^" ++ joinList (String.singleton sep) part_patterns ++ "$")
          else none
      match joinRes with
      | some p => some p
      | none =>
        if _validate_pattern ("^.+" ++ pyReEscape (String.singleton sep) ++ ".+$") v i
        then some ("^.+" ++ pyReEscape (String.singleton sep) ++ ".+$")
        else containsLoop v i rest

/-- Model of `_generate_contains_pattern`. -/
def _generate_contains_pattern (v i : List String) : Option String :=
  if v.isEmpty then none else containsLoop v i (containsSeparators v)

/-! ## Strategy 3 in code order: structural decomposition (lines 178-257) -/

/-- The separator set of `_generate_structural_pattern`: distinct
non-alphanumeric characters of the valid strings, sorted ascending. -/
def structSeparators (v : List String) : List Char :=
  sortChars (dedupChars ((pyConcatChars v).filter (fun c => !pyIsAlnum c)))

/-- The simple structural candidate: unescaped separator between `.+`
(line 192, "Don't escape separator for simple patterns"). -/
def structSimplePat (sep : Char) : String :=
  "^.+" ++ String.singleton sep ++ ".+$"

/-- First loop of `_generate_structural_pattern` (lines 191-194). -/
def structSimpleLoop (v i : List String) : List Char → Option String
  | [] => none
  | sep :: rest =>
    if _validate_pattern (structSimplePat sep) v i then some (structSimplePat sep)
    else structSimpleLoop v i rest

/-- The hardcoded email-shaped candidate (line 218). -/
def emailPat : String := "^\\D+@\\w+\\.\\w+$"

/-- The email special case (lines 206-220): two `@`-parts, dotted domains
of exactly two word-character parts, digit-free local parts. -/
def emailBranch (v i : List String) (parts_list : List (List String)) : Option String :=
  let second_parts := parts_list.map (fun p => p.getD 1 "")
  if second_parts.all (fun t => pyStrContains t '.') then
    let first_parts := parts_list.map (fun p => p.getD 0 "")
    if first_parts.all (fun t => t.data.all (fun c => !pyIsDigit c)) then
      let domain_parts := second_parts.map (fun t => pySplit t '.')
      if domain_parts.all (fun p => p.length == 2) then
        if domain_parts.all (fun p => p.all (fun t => t.data.all (fun c => pyIsAlnum c || c == '_')))
        then
          if _validate_pattern emailPat v i then some emailPat else none
        else none
      else none
    else none
  else none

/-- The per-position decomposition candidate (lines 222-241): part classes
joined by the raw, unescaped separator. -/
def structPartsPat (sep : Char) (pps : List String) : String :=
  "^" ++ joinList (String.singleton sep) (pps.map (fun q => q ++ "+")) ++ "$"

/-- The nested two-separator candidate (line 253): both separators raw. -/
def structNestedPat (pp0 : String) (sep nsep : Char) : String :=
  "^" ++ pp0 ++ "+" ++ String.singleton sep ++ "\\w+" ++ String.singleton nsep ++ "\\w+$"

/-- The nested-structure loop (lines 246-255). -/
def nestedLoop (v i : List String) (pp0 : String) (sep : Char) (second_parts : List String) :
    List Char → Option String
  | [] => none
  | nsep :: rest =>
    if nsep != sep && second_parts.all (fun t => pyStrContains t nsep) then
      if (second_parts.map (fun t => pySplit t nsep)).all (fun p => p.length == 2) then
        if _validate_pattern (structNestedPat pp0 sep nsep) v i
        then some (structNestedPat pp0 sep nsep)
        else nestedLoop v i pp0 sep second_parts rest
      else nestedLoop v i pp0 sep second_parts rest
    else nestedLoop v i pp0 sep second_parts rest

/-- Second loop of `_generate_structural_pattern` (lines 197-255):
part-count check, email special case, per-position decomposition, nested
structure. -/
def structAnalyzeLoop (v i : List String) (allSeps : List Char) : List Char → Option String
  | [] => none
  | sep :: rest =>
    let parts_list := v.map (fun s => pySplit s sep)
    let hd := parts_list.headD []
    if !(parts_list.all (fun p => p.length == hd.length)) then structAnalyzeLoop v i allSeps rest
    else
      let emailRes : Option String :=
        if sep == '@' && hd.length == 2 then emailBranch v i parts_list else none
      match emailRes with
      | some p => some p
      | none =>
        let part_patterns := (List.range hd.length).map (fun j =>
          ((_analyze_character_patterns (parts_list.map (fun p => p.getD j ""))).headD "."))
        if _validate_pattern (structPartsPat sep part_patterns) v i
        then some (structPartsPat sep part_patterns)
        else
          let nestedRes : Option String :=
            if hd.length == 2 then
              nestedLoop v i (part_patterns.headD ".") sep
                (parts_list.map (fun p => p.getD 1 "")) allSeps
            else none
          match nestedRes with
          | some p => some p
          | none => structAnalyzeLoop v i allSeps rest

/-- Model of `_generate_structural_pattern`. -/
def _generate_structural_pattern (v i : List String) : Option String :=
  if v.isEmpty then none
  else
    let seps := structSeparators v
    if seps.isEmpty then none
    else
      match structSimpleLoop v i seps with
      | some p => some p
      | none => structAnalyzeLoop v i seps seps

/-! ## Inference engine (`generate_gree_expression`, lines 20-40) -/

/-- The generator list of `generate_gree_expression`, in the source's
order: character class, prefix, structural ("Try structural first for
simpler patterns"), suffix, contains. -/
def generatorList : List (List String → List String → Option String) :=
  [_generate_char_class_pattern, _generate_prefix_pattern, _generate_structural_pattern,
   _generate_suffix_pattern, _generate_contains_pattern]

/-- The engine loop: first non-empty candidate within the 20-character
budget that the oracle confirms. -/
def engineLoop (v i : List String) : List (List String → List String → Option String) → String
  | [] => "pattern not found"
  | g :: gs =>
    match g v i with
    | some p =>
      if p != "" && decide (p.length ≤ 20) && _validate_pattern p v i then p
      else engineLoop v i gs
    | none => engineLoop v i gs

/-- Model of `generate_gree_expression`. -/
def generate_gree_expression (v i : List String) : String :=
  if v.isEmpty || i.isEmpty then "pattern not found"
  else engineLoop v i generatorList

/-- The candidate of the strategy at index `j` of a generator list. -/
def candidateAt (v i : List String) (gs : List (List String → List String → Option String))
    (j : Nat) : Option String :=
  match gs.get? j with
  | some g => g v i
  | none => none

/-- Whether the strategy at index `j` yields a non-empty candidate within
the budget that the oracle confirms. -/
def acceptedAt (v i : List String) (gs : List (List String → List String → Option String))
    (j : Nat) : Bool :=
  match candidateAt v i gs j with
  | some p => p != "" && decide (p.length ≤ 20) && _validate_pattern p v i
  | none => false

/-! ## Helper lemmas -/

/-- Any non-sentinel result of the engine loop is a non-empty candidate
within the budget that the oracle confirmed. -/
theorem engineLoop_spec (v i : List String)
    (gs : List (List String → List String → Option String))
    (h : engineLoop v i gs ≠ "pattern not found") :
    engineLoop v i gs ≠ "" ∧ (engineLoop v i gs).length ≤ 20 ∧
      _validate_pattern (engineLoop v i gs) v i = true := by
  induction gs with
  | nil => exact absurd rfl h
  | cons g gs ih =>
    by_cases hg : ∃ p, g v i = some p ∧
        (p != "" && decide (p.length ≤ 20) && _validate_pattern p v i) = true
    · obtain ⟨p, hp, hc⟩ := hg
      have hres : engineLoop v i (g :: gs) = p := by
        simp only [engineLoop, hp, hc, if_true]
      rw [hres]
      have hc1 := hc
      rw [Bool.and_assoc, Bool.and_eq_true, Bool.and_eq_true] at hc1
      obtain ⟨hne, hlen, hval⟩ := hc1
      refine ⟨?_, ?_, hval⟩
      · intro hcontra; rw [hcontra] at hne; simp at hne
      · exact of_decide_eq_true hlen
    · have hres : engineLoop v i (g :: gs) = engineLoop v i gs := by
        simp only [engineLoop]
        cases hgv : g v i with
        | none => rfl
        | some p =>
          have : (p != "" && decide (p.length ≤ 20) && _validate_pattern p v i) ≠ true := by
            intro hc; exact hg ⟨p, hgv, hc⟩
          simp only [Bool.not_eq_true] at this
          simp [this]
      rw [hres] at h ⊢
      exact ih h

/-- A confirmed oracle verdict with a non-empty valid sequence forces the
pattern to compile and yields the per-string match facts. -/
theorem validate_true_elim (p : String) (v i : List String)
    (hv : v.isEmpty = false) (hval : _validate_pattern p v i = true) :
    ∃ r, compileRE p = some r ∧ (∀ s ∈ v, matchRE r s.data = true) ∧
      (∀ s ∈ i, matchRE r s.data = false) := by
  unfold _validate_pattern at hval
  cases hc : compileRE p with
  | none =>
    rw [hc] at hval
    rw [Bool.and_eq_true] at hval
    rw [hval.1] at hv
    exact absurd hv (by simp)
  | some r =>
    rw [hc] at hval
    rw [Bool.and_eq_true] at hval
    obtain ⟨hall, hnone⟩ := hval
    refine ⟨r, rfl, ?_, ?_⟩
    · intro s hs
      exact List.all_eq_true.mp hall s hs
    · intro s hs
      by_contra hmatch
      rw [Bool.not_eq_false] at hmatch
      have : i.any (fun s => matchRE r s.data) = true :=
        List.any_eq_true.mpr ⟨s, hs, hmatch⟩
      rw [this] at hnone
      simp at hnone

/-! ## Claims -/

/-- C1: Soundness of every accepted pattern.  If `generate_gree_expression`
returns a pattern other than the sentinel "pattern not found", the pattern
compiles, every string of the valid sequence fully matches it, and no
string of the invalid sequence fully matches it. -/
theorem generate_sound (v i : List String)
    (h : generate_gree_expression v i ≠ "pattern not found") :
    ∃ r, compileRE (generate_gree_expression v i) = some r ∧
      (∀ s ∈ v, matchRE r s.data = true) ∧ (∀ s ∈ i, matchRE r s.data = false) := by
  unfold generate_gree_expression at h ⊢
  by_cases hvi : (v.isEmpty || i.isEmpty) = true
  · rw [if_pos hvi] at h; exact absurd rfl h
  · rw [Bool.not_eq_true, Bool.or_eq_false_iff] at hvi
    have hvi' : (v.isEmpty || i.isEmpty) = false := by
      rw [Bool.or_eq_false_iff]; exact hvi
    rw [hvi'] at h ⊢
    simp only [Bool.false_eq_true, if_false] at h ⊢
    obtain ⟨_, _, hval⟩ := engineLoop_spec v i generatorList h
    exact validate_true_elim _ v i hvi.1 hval

/-- Witness for C1 at the first scroll input. -/
theorem generate_sound_witness :
    ∃ r, compileRE (generate_gree_expression ["abc", "def"] ["123", "456"]) = some r ∧
      (∀ s ∈ ["abc", "def"], matchRE r s.data = true) ∧
      (∀ s ∈ ["123", "456"], matchRE r s.data = false) :=
  generate_sound ["abc", "def"] ["123", "456"] (by decide)

/-- C3: Length budget.  Every non-sentinel result of
`generate_gree_expression` has literal length at most 20 characters. -/
theorem length_budget (v i : List String)
    (h : generate_gree_expression v i ≠ "pattern not found") :
    (generate_gree_expression v i).length ≤ 20 := by
  unfold generate_gree_expression at h ⊢
  by_cases hvi : (v.isEmpty || i.isEmpty) = true
  · rw [if_pos hvi] at h; exact absurd rfl h
  · rw [Bool.not_eq_true] at hvi
    rw [hvi] at h ⊢
    simp only [Bool.false_eq_true, if_false] at h ⊢
    exact (engineLoop_spec v i generatorList h).2.1

/-- Witness for C3 at the first scroll input. -/
theorem length_budget_witness :
    (generate_gree_expression ["abc", "def"] ["123", "456"]).length ≤ 20 :=
  length_budget ["abc", "def"] ["123", "456"] (by decide)

/-- C4: Empty-set precondition.  If either input sequence is empty,
`generate_gree_expression` returns the sentinel regardless of the other
sequence. -/
theorem empty_input_sentinel (v i : List String) (h : v = [] ∨ i = []) :
    generate_gree_expression v i = "pattern not found" := by
  unfold generate_gree_expression
  rcases h with h | h <;> subst h <;> simp [List.isEmpty]

/-- Witness for C4: an empty valid sequence with a non-empty invalid one. -/
theorem empty_input_sentinel_witness :
    generate_gree_expression [] ["xyz"] = "pattern not found" :=
  empty_input_sentinel [] ["xyz"] (Or.inl rfl)

/-- C9: the email-shaped concrete scenario of the spec (scroll 5). -/
theorem email_scenario :
    generate_gree_expression ["foo@abc.com", "bar@def.net"] ["baz@abc", "qux.com"] =
      "^\\D+@\\w+\\.\\w+$" := by decide

/-- C5 counterexample: a pattern whose compilation fails, combined with two
empty sequences, makes `_validate_pattern` return true, not false — no
match is ever attempted, so the compile error never surfaces. -/
theorem validate_error_cex :
    compileRE "^[" = none ∧ _validate_pattern "^[" [] [] = true := by decide

/-- C5 amended: if compiling the pattern fails and at least one of the two
sequences is non-empty, `_validate_pattern` absorbs the error and returns
false. -/
theorem validate_error_false (p : String) (v i : List String)
    (hc : compileRE p = none) (hne : v ≠ [] ∨ i ≠ []) :
    _validate_pattern p v i = false := by
  unfold _validate_pattern
  rw [hc]
  rcases hne with h | h
  · cases v with
    | nil => exact absurd rfl h
    | cons s rest => simp [List.isEmpty]
  · cases i with
    | nil => exact absurd rfl h
    | cons s rest => cases v <;> simp [List.isEmpty]

/-- Witness for the amended C5 at a malformed pattern and a one-element
valid sequence. -/
theorem validate_error_false_witness :
    _validate_pattern "^[" ["a"] [] = false :=
  validate_error_false "^[" ["a"] [] (by decide) (Or.inl (by decide))

/-- C2 counterexample: on valid = ["a-b","c-b"], invalid = ["ab","cb"] the
suffix strategy yields the accepted candidate "^.+\-b$" (non-empty, within
budget, confirmed by the oracle), yet the engine returns the structural
strategy's "^.+-.+$": in the claimed order (suffix before structural) the
suffix candidate would have to win, so the claimed order is wrong — the
source tries structural third, before suffix and contains. -/
theorem strategy_order_cex :
    generate_gree_expression ["a-b", "c-b"] ["ab", "cb"] = "^.+-.+$" ∧
    _generate_structural_pattern ["a-b", "c-b"] ["ab", "cb"] = some "^.+-.+$" ∧
    _generate_suffix_pattern ["a-b", "c-b"] ["ab", "cb"] = some "^.+\\-b$" ∧
    ("^.+\\-b$").length ≤ 20 ∧
    _validate_pattern "^.+\\-b$" ["a-b", "c-b"] ["ab", "cb"] = true ∧
    "^.+-.+$" ≠ "^.+\\-b$" := by decide

/-- Whenever the strategy at some index of a generator list is accepted,
the loop's result is the candidate of an accepted strategy at an index no
later than it. -/
theorem engineLoop_priority (v i : List String) :
    ∀ (gs : List (List String → List String → Option String)) (j : Nat),
      acceptedAt v i gs j = true →
      ∃ k, k ≤ j ∧ acceptedAt v i gs k = true ∧
        candidateAt v i gs k = some (engineLoop v i gs) := by
  intro gs
  induction gs with
  | nil =>
    intro j h
    exfalso
    unfold acceptedAt candidateAt at h
    simp at h
  | cons g gs ih =>
    intro j h
    by_cases h0 : acceptedAt v i (g :: gs) 0 = true
    · refine ⟨0, Nat.zero_le j, h0, ?_⟩
      have h0' := h0
      unfold acceptedAt candidateAt at h0'
      simp only [List.get?] at h0'
      cases hgv : g v i with
      | none => rw [hgv] at h0'; simp at h0'
      | some p =>
        rw [hgv] at h0'
        have hcond : (p != "" && decide (p.length ≤ 20) && _validate_pattern p v i) = true := h0'
        have hres : engineLoop v i (g :: gs) = p := by
          simp only [engineLoop, hgv, hcond, if_true]
        unfold candidateAt
        simp only [List.get?]
        rw [hgv, hres]
    · have hres : engineLoop v i (g :: gs) = engineLoop v i gs := by
        simp only [engineLoop]
        cases hgv : g v i with
        | none => rfl
        | some p =>
          have hcond : (p != "" && decide (p.length ≤ 20) && _validate_pattern p v i) = false := by
            by_contra hcontra
            rw [Bool.not_eq_false] at hcontra
            apply h0
            unfold acceptedAt candidateAt
            simp only [List.get?]
            rw [hgv]
            exact hcontra
          simp [hcond]
      cases j with
      | zero => exact absurd h h0
      | succ j' =>
        have h' : acceptedAt v i gs j' = true := by
          unfold acceptedAt candidateAt at h ⊢
          simpa using h
        obtain ⟨k, hk, hacc, hcand⟩ := ih j' h'
        refine ⟨k + 1, Nat.succ_le_succ hk, ?_, ?_⟩
        · unfold acceptedAt candidateAt at hacc ⊢
          simpa using hacc
        · rw [hres]
          unfold candidateAt at hcand ⊢
          simpa using hcand

/-- C2 amended: the engine tries the five strategies in the source's fixed
order — uniform character class, common prefix, structural decomposition,
common suffix, contains-a-distinguishing-character — and, for non-empty
inputs, whenever the strategy at index `j` of that order yields a
non-empty candidate within the budget that the oracle confirms, the
returned pattern is such an accepted candidate of an index at most `j`:
a later strategy's candidate is never returned when an earlier one's
would be accepted. -/
theorem strategy_priority (v i : List String) (j : Nat)
    (hv : v ≠ []) (hi : i ≠ [])
    (h : acceptedAt v i generatorList j = true) :
    ∃ k, k ≤ j ∧ acceptedAt v i generatorList k = true ∧
      candidateAt v i generatorList k = some (generate_gree_expression v i) := by
  have hres : generate_gree_expression v i = engineLoop v i generatorList := by
    unfold generate_gree_expression
    cases v with
    | nil => exact absurd rfl hv
    | cons a as_ =>
      cases i with
      | nil => exact absurd rfl hi
      | cons b bs => simp [List.isEmpty]
  rw [hres]
  exact engineLoop_priority v i generatorList j h

/-- Witness for the amended C2: at valid = ["a-b","c-b"], invalid =
["ab","cb"] the suffix strategy (index 3) is accepted, so the engine's
result is an accepted candidate of some index at most 3. -/
theorem strategy_priority_witness :
    ∃ k, k ≤ 3 ∧ acceptedAt ["a-b", "c-b"] ["ab", "cb"] generatorList k = true ∧
      candidateAt ["a-b", "c-b"] ["ab", "cb"] generatorList k =
        some (generate_gree_expression ["a-b", "c-b"] ["ab", "cb"]) :=
  strategy_priority ["a-b", "c-b"] ["ab", "cb"] 3 (by decide) (by decide) (by decide)

/-- Every character of the concatenation of a string list belongs to one of
its strings. -/
theorem pyConcatChars_mem (v : List String) (c : Char) (h : c ∈ pyConcatChars v) :
    ∃ s ∈ v, c ∈ s.data := by
  induction v with
  | nil => simp [pyConcatChars] at h
  | cons s rest ih =>
    simp only [pyConcatChars, List.mem_append] at h
    rcases h with h | h
    · exact ⟨s, List.mem_cons_self s rest, h⟩
    · obtain ⟨t, ht, hc⟩ := ih h
      exact ⟨t, List.mem_cons_of_mem s ht, hc⟩

/-- C8 counterexample: valid = ["a.b","cde"], invalid = ["xy"].  The valid
string "cde" contains no non-alphanumeric character, yet the structural
strategy still produces the candidate "^.+..+$" — the unescaped separator
"." acts as a wildcard, so the simple-shape pattern matches "cde" and the
attempt is not discarded. -/
theorem structural_discard_cex :
    _generate_structural_pattern ["a.b", "cde"] ["xy"] = some "^.+..+$" ∧
    "cde" ∈ ["a.b", "cde"] ∧
    (∀ c ∈ "cde".data, pyIsAlnum c = true) := by decide

/-- C8 amended: only when NO valid string contains a non-alphanumeric
character (every valid string is entirely alphanumeric) does the
structural strategy necessarily produce no candidate. -/
theorem structural_all_alnum_none (v i : List String)
    (h : ∀ s ∈ v, ∀ c ∈ s.data, pyIsAlnum c = true) :
    _generate_structural_pattern v i = none := by
  unfold _generate_structural_pattern
  cases hv : v with
  | nil => simp [List.isEmpty]
  | cons s rest =>
    have hfilter : (pyConcatChars v).filter (fun c => !pyIsAlnum c) = [] := by
      rw [List.filter_eq_nil_iff]
      intro c hc
      obtain ⟨t, ht, hmem⟩ := pyConcatChars_mem v c hc
      rw [h t ht c hmem]
      simp
    have hseps : structSeparators v = [] := by
      unfold structSeparators
      rw [hfilter]
      rfl
    rw [← hv, hseps]
    simp [List.isEmpty]

/-- Witness for the amended C8 at an all-alphanumeric valid sequence. -/
theorem structural_all_alnum_none_witness :
    _generate_structural_pattern ["ab"] ["c"] = none :=
  structural_all_alnum_none ["ab"] ["c"] (by decide)

/-- C6 counterexample: on valid = ["a-a","b-b"], invalid = ["ab-"] the
contains strategy produces "^\D+-\D+$" built around its only candidate
character '-', yet '-' occurs in the invalid string "ab-": the strategy
only requires the character to be present in every valid string and never
checks absence from the invalid ones. -/
theorem contains_char_cex :
    _generate_contains_pattern ["a-a", "b-b"] ["ab-"] = some "^\\D+-\\D+$" ∧
    containsSeparators ["a-a", "b-b"] = ['-'] ∧
    pyStrContains "^\\D+-\\D+$" '-' = true ∧
    pyStrContains "ab-" '-' = true := by decide

/-- Inversion of the contains loop: any produced candidate is built around
a separator character that occurs in every valid string, either as the
part-classes joined by that character or as the escaped simple contains
shape. -/
theorem containsLoop_shape (v i : List String) :
    ∀ (seps : List Char), (∀ c ∈ seps, v.all (fun s => pyStrContains s c) = true) →
    ∀ p, containsLoop v i seps = some p →
    ∃ sep, (∀ s ∈ v, pyStrContains s sep = true) ∧
      ((∃ pps : List String, pps ≠ [] ∧
          p = "^" ++ joinList (String.singleton sep) pps ++ "$") ∨
       p = "^.+" ++ pyReEscape (String.singleton sep) ++ ".+$") := by
  intro seps
  induction seps with
  | nil =>
    intro _ p h
    simp [containsLoop] at h
  | cons sep rest ih =>
    intro hmem p h
    have hsep : ∀ s ∈ v, pyStrContains s sep = true := by
      intro s hs
      exact List.all_eq_true.mp (hmem sep (List.mem_cons_self _ _)) s hs
    have hrest : ∀ c ∈ rest, v.all (fun s => pyStrContains s c) = true :=
      fun c hc => hmem c (List.mem_cons_of_mem _ hc)
    simp only [containsLoop] at h
    split at h
    · exact ih hrest p h
    · split at h
      · -- the joined candidate was returned
        rename_i q heq
        rw [Option.some_inj] at h
        subst h
        split at heq
        · exact absurd heq (by simp)
        · split at heq
          · rw [Option.some_inj] at heq
            subst heq
            refine ⟨sep, hsep, Or.inl ⟨_, ?_, rfl⟩⟩
            rename_i hne _
            intro hcontra
            rw [hcontra] at hne
            simp at hne
          · exact absurd heq (by simp)
      · -- the escaped simple candidate or the recursive call
        split at h
        · rw [Option.some_inj] at h
          subst h
          exact ⟨sep, hsep, Or.inr rfl⟩
        · exact ih hrest p h

/-- C6 amended: every candidate produced by the contains strategy is built
around a single character present in every string of the valid sequence
(the source imposes no condition on the invalid sequence; the oracle only
checks the full pattern). -/
theorem contains_char_shape (v i : List String) (p : String)
    (h : _generate_contains_pattern v i = some p) :
    ∃ sep, (∀ s ∈ v, pyStrContains s sep = true) ∧
      ((∃ pps : List String, pps ≠ [] ∧
          p = "^" ++ joinList (String.singleton sep) pps ++ "$") ∨
       p = "^.+" ++ pyReEscape (String.singleton sep) ++ ".+$") := by
  unfold _generate_contains_pattern at h
  split at h
  · exact absurd h (by simp)
  · refine containsLoop_shape v i (containsSeparators v) ?_ p h
    intro c hc
    exact (List.mem_filter.mp hc).2

/-- Witness for the amended C6 at the counterexample input. -/
theorem contains_char_shape_witness :
    ∃ sep, (∀ s ∈ ["a-a", "b-b"], pyStrContains s sep = true) ∧
      ((∃ pps : List String, pps ≠ [] ∧
          "^\\D+-\\D+$" = "^" ++ joinList (String.singleton sep) pps ++ "$") ∨
       "^\\D+-\\D+$" = "^.+" ++ pyReEscape (String.singleton sep) ++ ".+$") :=
  contains_char_shape ["a-a", "b-b"] ["ab-"] "^\\D+-\\D+$" (by decide)

/-- C7 counterexample: on valid = ["a-b","c-d"], invalid = ["ab","cd"] the
structural strategy returns "^.+-.+$": the separator '-' is inserted raw —
its regex-escaped form would be "\-", but the candidate contains no
backslash at all, so the separator occurrence is not escaped literal
text. -/
theorem structural_escape_cex :
    _generate_structural_pattern ["a-b", "c-d"] ["ab", "cd"] = some "^.+-.+$" ∧
    structSeparators ["a-b", "c-d"] = ['-'] ∧
    pyReEscape "-" = "\\-" ∧
    ("^.+-.+$").data.all (fun c => c != '\\') = true := by decide

/-- Inversion of the simple structural loop: the candidate is the
unescaped simple shape for one of the tried separators. -/
theorem structSimpleLoop_shape (v i : List String) :
    ∀ (seps : List Char) (p : String), structSimpleLoop v i seps = some p →
      ∃ sep ∈ seps, p = structSimplePat sep := by
  intro seps
  induction seps with
  | nil => intro p h; simp [structSimpleLoop] at h
  | cons sep rest ih =>
    intro p h
    simp only [structSimpleLoop] at h
    split at h
    · rw [Option.some_inj] at h
      exact ⟨sep, List.mem_cons_self _ _, h.symm⟩
    · obtain ⟨s, hs, hp⟩ := ih p h
      exact ⟨s, List.mem_cons_of_mem _ hs, hp⟩

/-- Inversion of the email special case: its only candidate is the
hardcoded email pattern. -/
theorem emailBranch_shape (v i : List String) (parts_list : List (List String)) (p : String)
    (h : emailBranch v i parts_list = some p) : p = emailPat := by
  simp only [emailBranch] at h
  split at h
  · split at h
    · split at h
      · split at h
        · split at h
          · rw [Option.some_inj] at h; exact h.symm
          · exact absurd h (by simp)
        · exact absurd h (by simp)
      · exact absurd h (by simp)
    · exact absurd h (by simp)
  · exact absurd h (by simp)

/-- Inversion of the nested loop: the candidate is the nested two-separator
shape for one of the tried nested separators. -/
theorem nestedLoop_shape (v i : List String) (pp0 : String) (sep : Char)
    (second_parts : List String) :
    ∀ (nseps : List Char) (p : String),
      nestedLoop v i pp0 sep second_parts nseps = some p →
      ∃ nsep ∈ nseps, p = structNestedPat pp0 sep nsep := by
  intro nseps
  induction nseps with
  | nil => intro p h; simp [nestedLoop] at h
  | cons nsep rest ih =>
    intro p h
    simp only [nestedLoop] at h
    split at h
    · split at h
      · split at h
        · rw [Option.some_inj] at h
          exact ⟨nsep, List.mem_cons_self _ _, h.symm⟩
        · obtain ⟨s, hs, hp⟩ := ih p h
          exact ⟨s, List.mem_cons_of_mem _ hs, hp⟩
      · obtain ⟨s, hs, hp⟩ := ih p h
        exact ⟨s, List.mem_cons_of_mem _ hs, hp⟩
    · obtain ⟨s, hs, hp⟩ := ih p h
      exact ⟨s, List.mem_cons_of_mem _ hs, hp⟩

/-- Inversion of the analyzing structural loop: the candidate is the email
pattern (for separator '@'), a parts decomposition joined by the raw
separator, or a nested shape with two raw separators. -/
theorem structAnalyzeLoop_shape (v i : List String) (allSeps : List Char) :
    ∀ (seps : List Char) (p : String), structAnalyzeLoop v i allSeps seps = some p →
      ∃ sep ∈ seps,
        (sep = '@' ∧ p = emailPat) ∨
        (∃ pps, p = structPartsPat sep pps) ∨
        (∃ pp0 nsep, nsep ∈ allSeps ∧ p = structNestedPat pp0 sep nsep) := by
  intro seps
  induction seps with
  | nil => intro p h; simp [structAnalyzeLoop] at h
  | cons sep rest ih =>
    intro p h
    simp only [structAnalyzeLoop] at h
    split at h
    · obtain ⟨s, hs, hp⟩ := ih p h
      exact ⟨s, List.mem_cons_of_mem _ hs, hp⟩
    · split at h
      · -- email special case fired
        rename_i q heq
        rw [Option.some_inj] at h
        subst h
        split at heq
        · rename_i hcond
          rw [Bool.and_eq_true] at hcond
          have hsep : sep = '@' := by
            have := hcond.1
            exact eq_of_beq this
          exact ⟨sep, List.mem_cons_self _ _,
            Or.inl ⟨hsep, emailBranch_shape v i _ q heq⟩⟩
        · exact absurd heq (by simp)
      · -- parts candidate or nested or recursion
        split at h
        · rw [Option.some_inj] at h
          subst h
          exact ⟨sep, List.mem_cons_self _ _, Or.inr (Or.inl ⟨_, rfl⟩)⟩
        · split at h
          · rename_i q heq
            rw [Option.some_inj] at h
            subst h
            split at heq
            · obtain ⟨nsep, hn, hp⟩ := nestedLoop_shape v i _ sep _ allSeps q heq
              exact ⟨sep, List.mem_cons_self _ _, Or.inr (Or.inr ⟨_, nsep, hn, hp⟩)⟩
            · exact absurd heq (by simp)
          · obtain ⟨s, hs, hp⟩ := ih p h
            exact ⟨s, List.mem_cons_of_mem _ hs, hp⟩

/-- C7 amended: every candidate of the structural strategy has one of the
source's four shapes, in each of which the separator occurrences between
content fragments are interpolated raw (unescaped); only the hardcoded
email-shaped pattern contains an escaped dot. -/
theorem structural_shapes (v i : List String) (p : String)
    (h : _generate_structural_pattern v i = some p) :
    ∃ sep ∈ structSeparators v,
      p = structSimplePat sep ∨
      (sep = '@' ∧ p = emailPat) ∨
      (∃ pps, p = structPartsPat sep pps) ∨
      (∃ pp0 nsep, nsep ∈ structSeparators v ∧ p = structNestedPat pp0 sep nsep) := by
  simp only [_generate_structural_pattern] at h
  split at h
  · exact absurd h (by simp)
  · split at h
    · exact absurd h (by simp)
    · split at h
      · rename_i q heq
        rw [Option.some_inj] at h
        subst h
        obtain ⟨sep, hs, hp⟩ := structSimpleLoop_shape v i (structSeparators v) q heq
        exact ⟨sep, hs, Or.inl hp⟩
      · obtain ⟨sep, hs, hp⟩ := structAnalyzeLoop_shape v i (structSeparators v)
          (structSeparators v) p h
        exact ⟨sep, hs, Or.inr hp⟩

/-- Witness for the amended C7 at the counterexample input. -/
theorem structural_shapes_witness :
    ∃ sep ∈ structSeparators ["a-b", "c-d"],
      "^.+-.+$" = structSimplePat sep ∨
      (sep = '@' ∧ "^.+-.+$" = emailPat) ∨
      (∃ pps, "^.+-.+$" = structPartsPat sep pps) ∨
      (∃ pp0 nsep, nsep ∈ structSeparators ["a-b", "c-d"] ∧
        "^.+-.+$" = structNestedPat pp0 sep nsep) :=
  structural_shapes ["a-b", "c-d"] ["ab", "cd"] "^.+-.+$" (by decide)

/-- C10: literal preference and wildcard fallback of the per-part
classifier.  (a) For a non-empty sequence whose elements are all the same
single character, `_infer_character_class` returns exactly that character,
unescaped.  (b) When none of the uniform classes applies (not all
alphabetic, not all digits, not all word characters, not all the same
single character), it returns the wildcard ".". -/
theorem infer_literal_and_wildcard (strings : List String) :
    (∀ c : Char, strings ≠ [] → (∀ s ∈ strings, s = String.singleton c) →
      _infer_character_class strings = String.singleton c) ∧
    (strings.all pyStrIsAlpha = false →
     strings.all pyStrIsDigit = false →
     strings.all (fun s => s.data.all (fun ch => pyIsAlnum ch || ch == '_')) = false →
     (strings.all (fun s => s.length == 1) && allSameNonempty strings) = false →
      _infer_character_class strings = ".") := by
  constructor
  · intro c hne hall
    cases strings with
    | nil => exact absurd rfl hne
    | cons s rest =>
      have hs : s = String.singleton c := hall s (List.mem_cons_self _ _)
      have hlen1 : ((s :: rest).all (fun t => t.length == 1)) = true := by
        rw [List.all_eq_true]
        intro t ht
        rw [hall t ht]
        rfl
      have hsame : allSameNonempty (s :: rest) = true := by
        unfold allSameNonempty
        rw [List.all_eq_true]
        intro t ht
        rw [hall t (List.mem_cons_of_mem _ ht), hs]
        simp
      have hmem : s ∈ _analyze_character_patterns (s :: rest) := by
        unfold _analyze_character_patterns
        have hcond : ((s :: rest).all (fun t => t.length == 1) && allSameNonempty (s :: rest))
            = true := by
          rw [hlen1, hsame]
          rfl
        rw [hcond]
        simp
      have hcond : (decide (0 < (s :: rest).length) && (((s :: rest).headD "").length == 1)
          && ((_analyze_character_patterns (s :: rest)).contains ((s :: rest).headD ""))) =
            true := by
        rw [Bool.and_eq_true, Bool.and_eq_true]
        refine ⟨⟨by simp, ?_⟩, ?_⟩
        · simp only [List.headD_cons]
          rw [hs]
          rfl
        · simp only [List.headD_cons]
          exact List.elem_eq_true_of_mem hmem
      simp only [_infer_character_class]
      rw [if_pos hcond]
      simp only [List.headD_cons]
      exact hs
  · intro h1 h2 h3 h4
    have han : _analyze_character_patterns strings = [] := by
      unfold _analyze_character_patterns
      rw [h1, h2, h3, h4]
      simp
    simp only [_infer_character_class]
    rw [han]
    simp

/-- Witness for C10: the part list ["1","1"] yields the literal "1" rather
than the digit class, and a part list satisfying no uniform class yields
the wildcard. -/
theorem infer_literal_and_wildcard_witness :
    _infer_character_class ["1", "1"] = String.singleton '1' ∧
    _infer_character_class ["@b", "1"] = "." :=
  ⟨(infer_literal_and_wildcard ["1", "1"]).1 '1' (by decide) (by decide),
   (infer_literal_and_wildcard ["@b", "1"]).2 (by decide) (by decide) (by decide) (by decide)⟩
